import Mathlib

/-!
Verification of the RepoPrompter diff application engine.

The engine has two parts (spec §2): a markup parser turning an AI-supplied
markup string into an ordered list of typed file-change records, and a patch
applier that validates each target path against a base directory and performs
the requested filesystem mutations, reporting per-file success or failure.

The TypeScript sources ship the callers (`src/main/main.ts`, which registers
the `fs:parseXmlDiff` / `fs:applyXmlDiff` IPC handlers and the directory
walker `readDirRecursive`), while the engine itself lives in
`src/common/diffParser.ts` (`parseDiffXml`, `applyDiffPatches`), which is not
among the provided sources.  The engine definitions below are therefore
modelled from the specification; the IPC handlers and `readDirRecursive` are
embedded from `main.ts` directly.

Filesystem state is shallowly embedded as an association list from resolved
path segments to file contents together with a list of created directories;
a write oracle `wok : PathSegs → Bool` models success or failure of the
I/O performed for a destination path (directory creation plus the
rename step of the temp-file-and-rename write).
-/

/-- Per-file failure kinds recorded in `ApplyResult.failed` (spec §7).
`IoErr` models `ErrorKind::Io`. -/
inductive ErrorKind where
  | PathTraversal
  | IoErr
deriving DecidableEq, Repr

/-- Modelled from the spec: `ChangeOperation` (spec §3).  Only the `Replace`
variant is exercised by the observed grammar. -/
inductive ChangeOperation where
  | Replace (path : String) (content : String)
deriving DecidableEq, Repr

/-- Ordered sequence of operations, insertion order = document order. -/
abbrev ParsedDocument := List ChangeOperation

/-- Modelled from the spec: structured parse errors (spec §7). -/
inductive ParseError where
  | MissingName
  | UnknownOperation (file : String)
  | MalformedBlock
deriving DecidableEq, Repr

/-- Result of a whole `apply` call (spec §3). -/
structure ApplyResult where
  applied : List String
  failed : List (String × ErrorKind)
deriving DecidableEq, Repr

/-! ### Scanning primitives for the markup parser -/

/-- Find the first occurrence of `pat` as a contiguous substring of `s`;
return the text before it and the text after it. -/
def splitOnSub? (pat : List Char) : List Char → Option (List Char × List Char)
  | [] => if pat <+: ([] : List Char) then some ([], []) else none
  | c :: rest =>
    if pat <+: (c :: rest) then some ([], (c :: rest).drop pat.length)
    else (splitOnSub? pat rest).map (fun pr => (c :: pr.1, pr.2))

/-- Consume the literal `pat` from the front of `s`, or fail. -/
def expects (pat s : List Char) : Option (List Char) :=
  if pat <+: s then some (s.drop pat.length) else none

/-- ASCII whitespace test used when skipping the gaps the grammar allows
between structural tags. -/
def isWs (c : Char) : Bool :=
  c = ' ' || c = '\t' || c = '\n' || c = '\r'

/-- Drop leading whitespace. -/
def dropWs (s : List Char) : List Char := s.dropWhile isWs

/-- The marker `"<file"` opening a file block. -/
def OPENF : List Char := ("<file").toList

/-- The mandatory name attribute introducer `" name=\""`. -/
def ATTRN : List Char := (" name=\"").toList

/-- The close marker `"</replace>"` of the replace operation payload. -/
def CLOSER : List Char := ("</replace>").toList

/-- The close marker `"</file>"` of a file block. -/
def CLOSEF : List Char := ("</file>").toList

/-- Modelled from the spec: scan one `<file name="...">` block (spec §4.1,
§6).  Returns `none` when no further `<file` marker occurs (text before the
marker — the optional root wrapper, whitespace — is ignored); otherwise the
operation together with the remainder of the input after the block.  The
payload is taken verbatim between `<replace>` and the first `</replace>`, so
markup-like text such as a literal `</file>` inside the payload is kept
intact.  Missing `name` attribute fails with `MissingName`; an operation tag
other than `replace` (or a missing one) fails with `UnknownOperation`;
unterminated structure fails with `MalformedBlock`. -/
def parseBlock (s : List Char) : Except ParseError (Option (ChangeOperation × List Char)) :=
  match splitOnSub? OPENF s with
  | none => Except.ok none
  | some (_, afterOpen) =>
    match expects ATTRN afterOpen with
    | none => Except.error ParseError.MissingName
    | some afterAttr =>
      match splitOnSub? ['\"'] afterAttr with
      | none => Except.error ParseError.MalformedBlock
      | some (nameChars, afterName) =>
        match expects ['>'] afterName with
        | none => Except.error ParseError.MalformedBlock
        | some afterTag =>
          match expects ['<'] (dropWs afterTag) with
          | none => Except.error (ParseError.UnknownOperation (String.mk nameChars))
          | some afterLt =>
            match splitOnSub? ['>'] afterLt with
            | none => Except.error ParseError.MalformedBlock
            | some (tagChars, afterOpTag) =>
              if tagChars = ("replace").toList then
                match splitOnSub? CLOSER afterOpTag with
                | none => Except.error ParseError.MalformedBlock
                | some (content, afterContent) =>
                  match expects CLOSEF (dropWs afterContent) with
                  | none => Except.error ParseError.MalformedBlock
                  | some rest =>
                    Except.ok (some
                      (ChangeOperation.Replace (String.mk nameChars) (String.mk content), rest))
              else Except.error (ParseError.UnknownOperation (String.mk nameChars))

/-- Modelled from the spec: scan the whole document block by block.  The
fuel argument bounds the number of blocks; `parseDiffXml` supplies one more
than the input length, which always suffices since each block consumes at
least one character. -/
def parseBlocks : Nat → List Char → Except ParseError (List ChangeOperation)
  | 0, _ => Except.error ParseError.MalformedBlock
  | fuel + 1, s =>
    match parseBlock s with
    | Except.error e => Except.error e
    | Except.ok none => Except.ok []
    | Except.ok (some (op, rest)) =>
      match parseBlocks fuel rest with
      | Except.error e => Except.error e
      | Except.ok ops => Except.ok (op :: ops)

/-- Modelled from the spec: `parse(markup) -> Result<ParsedDocument, ParseError>`
(spec §4.1), the engine entry point exported by `src/common/diffParser.ts` as
`parseDiffXml` and consumed by the `fs:parseXmlDiff` handler in `main.ts`.
Pure, all-or-nothing: either a complete document or a structured error. -/
def parseDiffXml (xml : String) : Except ParseError ParsedDocument :=
  parseBlocks (xml.toList.length + 1) xml.toList

/-! ### Path validation (the security-critical step) -/

/-- Resolved path: the `/`-separated segments below the base directory. -/
abbrev PathSegs := List String

/-- Split a character list into `/`-separated segment strings; `cur` holds
the characters of the current segment in reverse. -/
def splitSegs : List Char → List Char → List String
  | cur, [] => [String.mk cur.reverse]
  | cur, ch :: rest =>
    if ch = '/' then String.mk cur.reverse :: splitSegs [] rest
    else splitSegs (ch :: cur) rest

/-- Modelled from the spec: normalize the segments against the base
directory (spec §4.2 step 1).  `acc` is the stack of segments already inside
the base directory (reversed).  A `..` with an empty stack climbs above the
base directory: the path is rejected with `none`.  Empty segments and `.`
are dropped. -/
def normSegs : List String → List String → Option (List String)
  | acc, [] => some acc.reverse
  | acc, seg :: rest =>
    if seg = ".." then
      match acc with
      | [] => none
      | _ :: acc2 => normSegs acc2 rest
    else if seg = "" || seg = "." then normSegs acc rest
    else normSegs (seg :: acc) rest

/-- Modelled from the spec: path validation (spec §4.2 step 1).  Rejects
empty paths, absolute paths, `..` segments that climb above the base
directory, and paths resolving to the base directory itself; accepts the
normalized segments otherwise. -/
def validatePath (p : String) : Option PathSegs :=
  match p.toList with
  | [] => none
  | ch :: rest =>
    if ch = '/' then none
    else
      match normSegs [] (splitSegs [] (ch :: rest)) with
      | none => none
      | some [] => none
      | some (seg :: segs) => some (seg :: segs)

/-! ### The filesystem model and the applier -/

/-- File contents, keyed by resolved path segments. -/
abbrev FileMap := List (PathSegs × String)

/-- Look a path up in the file map (first matching entry wins). -/
def lookupA : FileMap → PathSegs → Option String
  | [], _ => none
  | (k, v) :: rest, q => if q = k then some v else lookupA rest q

/-- Overwrite the entry for `k`, or append a fresh one. -/
def setA : FileMap → PathSegs → String → FileMap
  | [], k, v => [(k, v)]
  | (k2, v2) :: rest, k, v =>
    if k = k2 then (k, v) :: rest else (k2, v2) :: setA rest k v

/-- Remove every entry for `k`. -/
def removeA : FileMap → PathSegs → FileMap
  | [], _ => []
  | (k2, v2) :: rest, k =>
    if k = k2 then removeA rest k else (k2, v2) :: removeA rest k

/-- The modelled filesystem below the base directory: files plus the
directories created so far. -/
structure FsState where
  files : FileMap
  dirs : List PathSegs
deriving DecidableEq, Repr

/-- The temporary location used by the atomic write: a sibling of the
destination in the same directory, named after it. -/
def tempFor (segs : PathSegs) : PathSegs :=
  segs.dropLast ++ [segs.getLastD ("") ++ (".tmp")]

/-- All ancestor directories of a resolved path. -/
def parentsOf (segs : PathSegs) : List PathSegs :=
  (List.range segs.length).map (fun n => segs.take n)

/-- Modelled from the spec: directory preparation (spec §4.2 step 2) —
ensure all parent directories of the destination exist. -/
def addParents (ds : List PathSegs) (segs : PathSegs) : List PathSegs :=
  ds ++ parentsOf segs

/-- Modelled from the spec: the atomic-as-possible write (spec §4.2 step 3):
stage the content at a temporary sibling path, then — when the rename step
succeeds — rename it over the destination.  When the rename fails the
destination is untouched and only the staged temporary is cleaned up. -/
def atomicWrite (renameOk : Bool) (files : FileMap) (dest : PathSegs) (content : String) :
    FileMap × Bool :=
  let tmp := tempFor dest
  let staged := setA files tmp content
  if renameOk then (setA (removeA staged tmp) dest content, true)
  else (removeA staged tmp, false)

/-- Modelled from the spec: apply a single operation (spec §4.2 steps 1–4).
Validation failure records `PathTraversal` and touches nothing; otherwise
parent directories are prepared and the atomic write is attempted, a
failing write recording `IoErr` (= `ErrorKind::Io`). -/
def applyOne (wok : PathSegs → Bool) (st : FsState) :
    ChangeOperation → FsState × (String ⊕ (String × ErrorKind))
  | ChangeOperation.Replace p content =>
    match validatePath p with
    | none => (st, Sum.inr (p, ErrorKind.PathTraversal))
    | some segs =>
      let ds := addParents st.dirs segs
      match atomicWrite (wok segs) st.files segs content with
      | (fs2, true) => ({ files := fs2, dirs := ds }, Sum.inl p)
      | (fs2, false) => ({ files := fs2, dirs := ds }, Sum.inr (p, ErrorKind.IoErr))

/-- Modelled from the spec: run the batch in document order, containing each
per-file failure and reporting applied and failed entries in document order
(spec §4.2). -/
def applyDoc (wok : PathSegs → Bool) : FsState → List ChangeOperation → FsState × ApplyResult
  | st, [] => (st, ⟨[], []⟩)
  | st, op :: ops =>
    match applyOne wok st op with
    | (st2, Sum.inl p) =>
      let r := applyDoc wok st2 ops
      (r.1, ⟨p :: r.2.applied, r.2.failed⟩)
    | (st2, Sum.inr f) =>
      let r := applyDoc wok st2 ops
      (r.1, ⟨r.2.applied, f :: r.2.failed⟩)

/-- Modelled from the spec: `apply(baseDir, document) -> ApplyResult`
(spec §4.2).  The usability of the base directory is abstracted as a
boolean; an unusable base directory aborts the whole call, everything else
is contained per file. -/
def applyParsed (baseOk : Bool) (wok : PathSegs → Bool) (st : FsState)
    (doc : ParsedDocument) : Except String (FsState × ApplyResult) :=
  if baseOk then Except.ok (applyDoc wok st doc)
  else Except.error ("unusable baseDir")

/-- Human-readable rendering of a parse error, as surfaced to the caller. -/
def parseErrorMessage : ParseError → String
  | ParseError.MissingName => "Malformed diff: file block missing name attribute"
  | ParseError.UnknownOperation f => "Malformed diff: unknown operation in file block " ++ f
  | ParseError.MalformedBlock => "Malformed diff: malformed block"

/-- Modelled from the spec: `applyDiffPatches(basePath, xmlString)` as called
by the `fs:applyXmlDiff` handler in `main.ts` — parse the markup, then apply
the parsed document.  A parse error blocks any application attempt (spec §7):
the filesystem state is returned unchanged. -/
def applyDiffPatches (baseOk : Bool) (wok : PathSegs → Bool) (st : FsState)
    (xml : String) : FsState × Except String ApplyResult :=
  match parseDiffXml xml with
  | Except.error e => (st, Except.error (parseErrorMessage e))
  | Except.ok doc =>
    match applyParsed baseOk wok st doc with
    | Except.error m => (st, Except.error m)
    | Except.ok (st2, res) => (st2, Except.ok res)

/-! ### The IPC handlers and the directory walker, embedded from
`src/main/main.ts` -/

/-- A directory listing entry, as delivered by `fs.promises.readdir` with
`withFileTypes`. -/
inductive DirEntry where
  | file (name : String)
  | dir (name : String) (children : List DirEntry)

/-- Join of a relative base with an entry name, in the style of `path.relative`. -/
def relJoin (base name : String) : String :=
  if base = "" then name else base ++ ("/") ++ name

/-- Embedded from `readDirRecursive` in `main.ts` (lines 57–85): walk the
entries under `base` (the path relative to the root), skipping any entry
whose relative path the ignore predicate accepts, and for directories also
skipping when the relative path with a trailing `/` is ignored; files that
survive are listed in traversal order. -/
def walkEntries (ignored : String → Bool) : String → List DirEntry → List String
  | _, [] => []
  | base, DirEntry.file name :: rest =>
    let rel := relJoin base name
    (if ignored rel then [] else [rel]) ++ walkEntries ignored base rest
  | base, DirEntry.dir name children :: rest =>
    let rel := relJoin base name
    (if ignored rel then []
     else if ignored (rel ++ ("/")) then []
     else walkEntries ignored rel children) ++ walkEntries ignored base rest

/-- Embedded from `main.ts`: the `fs:readDirectory` handler body, i.e.
`readDirRecursive(dirPath)` on the tree rooted at the chosen directory. -/
def readDirRecursive (ignored : String → Bool) (root : List DirEntry) : List String :=
  walkEntries ignored ("") root

/-- Embedded from the `fs:applyXmlDiff` handler in `main.ts` (lines
300–307): run `applyDiffPatches` and report success, or catch the raised
error and report it as a message.  The handler has the ignore-pattern
configuration (`isFileIgnored`, `getIgnorePatterns` from `configStore`) in
scope but never consults it: the `ignored` parameter is unused, exactly as
in the source. -/
def fsApplyXmlDiffHandler (ignored : String → Bool) (baseOk : Bool)
    (wok : PathSegs → Bool) (st : FsState) (xml : String) :
    FsState × Bool × Option String :=
  match applyDiffPatches baseOk wok st xml with
  | (st2, Except.ok _) => (st2, true, none)
  | (st2, Except.error m) => (st2, false, some m)

/-- Embedded from the `fs:parseXmlDiff` handler in `main.ts` (lines
295–298): parsing only, no filesystem access. -/
def fsParseXmlDiffHandler (xml : String) : Except ParseError ParsedDocument :=
  parseDiffXml xml

/-- The rejection message built by the `fs:readFile` handler for oversized
files.  The source interpolates `fileSizeInMB.toFixed(1)`; the one-decimal
rendering of `size / 2^20` is reproduced here with exact rational rounding
(binary floating point is exact on these values: the divisor is a power of
two). -/
def mbFixed1 (size : Nat) : String :=
  let tenths := (size * 10 + 524288) / 1048576
  toString (tenths / 10) ++ (".") ++ toString (tenths % 10)

/-- The oversize rejection message from `main.ts` line 226. -/
def tooLargeMsg (relPath : String) (size : Nat) : String :=
  ("File ") ++ relPath ++ (" is too large (") ++ mbFixed1 size ++
    (" MB). Files over 5MB are not supported.")

/-- Embedded from the `fs:readFile` handler in `main.ts` (lines 219–236):
stat the file; when the stat fails, rethrow as a read failure; when the size
in megabytes (`stats.size / (1024 * 1024)`, exact here as a rational since
the divisor is a power of two) exceeds 5, reject with the oversize message
without reading the file; otherwise read and return the UTF-8 content.  The
second component records whether the content was actually read. -/
def fsReadFileHandler (statSize : Option Nat) (content : String)
    (relPath : String) : Except String String × Bool :=
  match statSize with
  | none => (Except.error (("Failed to read file ") ++ relPath), false)
  | some size =>
    if ((size : ℚ) / (1024 * 1024)) > 5 then
      (Except.error (tooLargeMsg relPath size), false)
    else (Except.ok content, true)

/-! ### Lemmas about the scanning primitives -/

theorem expects_append (pat t : List Char) : expects pat (pat ++ t) = some t := by
  simp [expects, List.prefix_append, List.drop_left]

theorem splitOnSub?_front (pat t : List Char) (hne : pat ≠ []) :
    splitOnSub? pat (pat ++ t) = some ([], t) := by
  match pat, hne with
  | p :: ps, _ =>
    show splitOnSub? (p :: ps) (p :: (ps ++ t)) = some ([], t)
    rw [splitOnSub?]
    rw [if_pos (by exact List.prefix_append (p :: ps) t)]
    simp [List.drop_left]

theorem splitOnSub?_append (pat : List Char) (hne : pat ≠ []) :
    ∀ (c rest : List Char),
      (∀ t, t <:+ c → t ≠ [] → ¬ pat <+: (t ++ pat ++ rest)) →
      splitOnSub? pat (c ++ pat ++ rest) = some (c, rest)
  | [], rest, _ => by
    simpa using splitOnSub?_front pat rest hne
  | a :: c2, rest, h => by
    have hnp : ¬ pat <+: ((a :: c2) ++ pat ++ rest) :=
      h (a :: c2) (List.suffix_refl _) (by simp)
    have ih := splitOnSub?_append pat hne c2 rest
      (fun t hs ht => h t (hs.trans (List.suffix_cons a c2)) ht)
    show splitOnSub? pat (a :: (c2 ++ pat ++ rest)) = some (a :: c2, rest)
    rw [splitOnSub?, if_neg (by simpa using hnp), ih]
    rfl

theorem splitOnSub?_single (q : Char) (c rest : List Char) (hq : q ∉ c) :
    splitOnSub? [q] (c ++ [q] ++ rest) = some (c, rest) := by
  refine splitOnSub?_append [q] (by simp) c rest ?_
  intro t hs ht hp
  match t, ht with
  | x :: t2, _ =>
    have hx : x = q := by
      rcases hp with ⟨u, hu⟩
      simpa using congrArg (fun l => l.head?) hu.symm
    exact hq (hs.subset (by simp [hx]))

/-- The close marker `"</replace>"` has no nontrivial self-overlap: it never equals a proper
nonempty prefix of itself followed by a prefix of itself.  This rules out
occurrences of the close marker straddling the payload boundary. -/
theorem closer_no_overlap :
    ∀ k, k < 10 → k = 0 ∨ CLOSER ≠ CLOSER.take k ++ CLOSER.take (10 - k) := by
  decide

theorem splitOnSub?_closer (c rest : List Char) (h : ¬ CLOSER <:+: c) :
    splitOnSub? CLOSER (c ++ CLOSER ++ rest) = some (c, rest) := by
  refine splitOnSub?_append CLOSER (by decide) c rest ?_
  intro t hs ht hp
  have hlen : CLOSER.length = 10 := by decide
  have htake := List.prefix_iff_eq_take.mp hp
  by_cases hk : CLOSER.length ≤ t.length
  · -- the occurrence would lie entirely inside `c`
    have hx : (t ++ CLOSER ++ rest).take CLOSER.length = t.take CLOSER.length := by
      rw [List.append_assoc, List.take_append_eq_append_take,
        Nat.sub_eq_zero_of_le hk, List.take_zero, List.append_nil]
    have h2 : CLOSER = t.take CLOSER.length := htake.trans hx
    have h3 : CLOSER <+: t := by
      rw [h2]
      exact List.take_prefix _ t
    rcases h3 with ⟨u, hu⟩
    rcases hs with ⟨s, hsu⟩
    exact h ⟨s, u, by rw [← hsu, ← hu, List.append_assoc]⟩
  · -- the occurrence would straddle the boundary: impossible, the close
    -- marker has no self-overlap
    push_neg at hk
    have hx : (t ++ CLOSER ++ rest).take CLOSER.length
        = t ++ CLOSER.take (CLOSER.length - t.length) := by
      rw [List.append_assoc, List.take_append_eq_append_take,
        List.take_of_length_le (le_of_lt hk), List.take_append_eq_append_take,
        Nat.sub_eq_zero_of_le (Nat.sub_le _ _), List.take_zero, List.append_nil]
    have h1 : CLOSER = t ++ CLOSER.take (CLOSER.length - t.length) := htake.trans hx
    have ht2 : t = CLOSER.take t.length := by
      have hpt : t <+: CLOSER := ⟨CLOSER.take (CLOSER.length - t.length), h1.symm⟩
      exact List.prefix_iff_eq_take.mp hpt
    have hkk : t.length < 10 := hlen ▸ hk
    rcases closer_no_overlap t.length hkk with h0 | hno
    · exact ht (List.length_eq_zero.mp h0)
    · refine hno ?_
      rw [hlen] at h1
      rw [← ht2]
      exact h1

theorem splitOnSub?_none (pat : List Char) :
    ∀ s : List Char, ¬ pat <:+: s → splitOnSub? pat s = none
  | [], h => by
    rw [splitOnSub?, if_neg]
    intro hp
    refine h ?_
    rw [List.prefix_nil.mp hp]
  | c :: rest, h => by
    have hnp : ¬ pat <+: c :: rest := fun hp => h (List.IsPrefix.isInfix hp)
    have ih := splitOnSub?_none pat rest
      (fun hi => h (by rcases hi with ⟨s, t, hst⟩ ; exact ⟨c :: s, t, by simp [hst]⟩))
    rw [splitOnSub?, if_neg hnp, ih]
    rfl

theorem dropWs_cons_of_not_ws (c : Char) (s : List Char) (h : isWs c = false) :
    dropWs (c :: s) = c :: s := by
  simp [dropWs, List.dropWhile_cons, h]

theorem toList_append (a b : String) : (a ++ b).toList = a.toList ++ b.toList :=
  String.data_append a b

theorem mk_toList (s : String) : String.mk s.toList = s := rfl

/-! ### Round-trip: well-formed documents -/

/-- One well-formed `<file name="..."><replace>...</replace></file>` block. -/
def renderBlock (p c : String) : String :=
  ("<file name=\"") ++ p ++ ("\"><replace>") ++ c ++ ("</replace></file>")

/-- Concatenation of well-formed blocks, in document order. -/
def renderDoc : List (String × String) → String
  | [] => ""
  | pc :: rest => renderBlock pc.1 pc.2 ++ renderDoc rest

/-- Scanning one rendered block followed by anything recovers its path and
content verbatim, provided the block is well formed: the path contains no
quote character (which would end the name attribute early) and the content
does not contain the close marker `</replace>` (which would end the payload
early). -/
theorem parseBlock_render (p c : String) (tail : List Char)
    (hq : ('\"') ∉ p.toList) (hc : ¬ CLOSER <:+: c.toList) :
    parseBlock ((renderBlock p c).toList ++ tail)
      = Except.ok (some (ChangeOperation.Replace p c, tail)) := by
  have hL : (renderBlock p c).toList ++ tail
      = OPENF ++ (ATTRN ++ (p.toList ++ ['\"'] ++ (['>'] ++ (['<'] ++
          (("replace").toList ++ ['>'] ++
            (c.toList ++ CLOSER ++ (CLOSEF ++ tail))))))) := by
    have h2 : ("<file name=\"").toList = OPENF ++ ATTRN := by decide
    have h3 : ("\"><replace>").toList
        = ['\"'] ++ (['>'] ++ (['<'] ++ (("replace").toList ++ ['>']))) := by decide
    have h4 : ("</replace></file>").toList = CLOSER ++ CLOSEF := by decide
    simp only [renderBlock, toList_append]
    rw [h2, h3, h4]
    simp [List.append_assoc]
  have eOpen : ∀ t, splitOnSub? OPENF (OPENF ++ t) = some ([], t) :=
    fun t => splitOnSub?_front _ t (by decide)
  have eQuote : ∀ rest, splitOnSub? ['\"'] (p.toList ++ ['\"'] ++ rest)
      = some (p.toList, rest) :=
    fun rest => splitOnSub?_single _ _ _ hq
  have eTag : ∀ rest, splitOnSub? ['>'] (("replace").toList ++ ['>'] ++ rest)
      = some (("replace").toList, rest) :=
    fun rest => splitOnSub?_single _ _ _ (by decide)
  have eClose : ∀ rest, splitOnSub? CLOSER (c.toList ++ CLOSER ++ rest)
      = some (c.toList, rest) :=
    fun rest => splitOnSub?_closer _ _ hc
  have eWsLt : ∀ s, dropWs (['<'] ++ s) = ['<'] ++ s := by
    intro s
    rw [List.singleton_append, dropWs_cons_of_not_ws _ _ (by decide),
      ← List.singleton_append]
  have eWsCf : ∀ s, dropWs (CLOSEF ++ s) = CLOSEF ++ s := by
    intro s
    have h5 : CLOSEF = ('<') :: ("/file>").toList := by decide
    rw [h5, List.cons_append, dropWs_cons_of_not_ws _ _ (by decide),
      ← List.cons_append]
  rw [hL]
  simp only [parseBlock, eOpen, expects_append, eQuote, eTag, eClose, eWsLt, eWsCf,
    mk_toList, if_true]

/-- With no `<file` marker anywhere in the input, the block scanner finds
nothing. -/
theorem parseBlock_no_open (s : List Char) (h : ¬ OPENF <:+: s) :
    parseBlock s = Except.ok none := by
  simp only [parseBlock, splitOnSub?_none OPENF s h]

theorem renderBlock_toList_ne_nil (p c : String) : (renderBlock p c).toList ≠ [] := by
  have h : (renderBlock p c).toList
      = ("<file name=\"").toList ++ (p.toList ++ (("\"><replace>").toList
          ++ (c.toList ++ ("</replace></file>").toList))) := by
    simp [renderBlock, toList_append]
  have h2 : ("<file name=\"").toList = ('<') :: ("file name=\"").toList := by decide
  rw [h, h2]
  simp

theorem length_le_renderDoc :
    ∀ l : List (String × String), l.length ≤ (renderDoc l).toList.length
  | [] => by simp [renderDoc]
  | pc :: rest => by
    have ih := length_le_renderDoc rest
    have hne := renderBlock_toList_ne_nil pc.1 pc.2
    have hpos : 1 ≤ (renderBlock pc.1 pc.2).toList.length :=
      List.length_pos.mpr hne
    calc (pc :: rest).length = rest.length + 1 := by simp
    _ ≤ (renderDoc rest).toList.length + (renderBlock pc.1 pc.2).toList.length := by
        omega
    _ = (renderDoc (pc :: rest)).toList.length := by
        simp [renderDoc, toList_append, Nat.add_comm]

/-- The block-by-block scan of a concatenation of well-formed blocks
recovers every block, given enough fuel. -/
theorem parseBlocks_renderDoc :
    ∀ (l : List (String × String)),
      (∀ pc ∈ l, ('\"') ∉ pc.1.toList) →
      (∀ pc ∈ l, ¬ CLOSER <:+: pc.2.toList) →
      ∀ fuel, l.length < fuel →
      parseBlocks fuel (renderDoc l).toList
        = Except.ok (l.map (fun pc => ChangeOperation.Replace pc.1 pc.2))
  | [], _, _, fuel, hfuel => by
    match fuel, hfuel with
    | f + 1, _ =>
      have h0 : parseBlock (("").toList) = Except.ok none := by
        refine parseBlock_no_open _ ?_
        decide
      simp only [parseBlocks, renderDoc, h0, List.map_nil]
  | pc :: rest, hq, hc, fuel, hfuel => by
    match fuel, hfuel with
    | f + 1, hfuel =>
      have hsplit : (renderDoc (pc :: rest)).toList
          = (renderBlock pc.1 pc.2).toList ++ (renderDoc rest).toList := by
        simp [renderDoc, toList_append]
      have hblock := parseBlock_render pc.1 pc.2 ((renderDoc rest).toList)
        (hq pc (List.mem_cons_self pc rest)) (hc pc (List.mem_cons_self pc rest))
      have ih := parseBlocks_renderDoc rest
        (fun x hx => hq x (List.mem_cons_of_mem pc hx))
        (fun x hx => hc x (List.mem_cons_of_mem pc hx))
        f (by simpa using Nat.lt_of_succ_lt_succ hfuel)
      simp only [parseBlocks, hsplit, hblock, ih, List.map_cons]

/-! ### Lemmas about the filesystem model -/

theorem lookupA_setA_self : ∀ (f : FileMap) (k : PathSegs) (v : String),
    lookupA (setA f k v) k = some v
  | [], _, _ => by simp [setA, lookupA]
  | (k2, v2) :: rest, k, v => by
    by_cases h : k = k2
    · simp [setA, lookupA, h]
    · simp [setA, lookupA, h, lookupA_setA_self rest k v]

theorem lookupA_setA_ne : ∀ (f : FileMap) (k q : PathSegs) (v : String),
    q ≠ k → lookupA (setA f k v) q = lookupA f q
  | [], k, q, v, h => by simp [setA, lookupA, h]
  | (k2, v2) :: rest, k, q, v, h => by
    by_cases h2 : k = k2
    · subst h2
      simp [setA, lookupA, h]
    · by_cases h3 : q = k2
      · simp [setA, lookupA, h2, h3]
      · simp [setA, lookupA, h2, h3, lookupA_setA_ne rest k q v h]

theorem lookupA_removeA_self : ∀ (f : FileMap) (k : PathSegs),
    lookupA (removeA f k) k = none
  | [], _ => by simp [removeA, lookupA]
  | (k2, v2) :: rest, k => by
    by_cases h : k = k2
    · rw [removeA, if_pos h, h]
      exact lookupA_removeA_self rest k2
    · simp [removeA, lookupA, h, lookupA_removeA_self rest k]

theorem lookupA_removeA_ne : ∀ (f : FileMap) (k q : PathSegs),
    q ≠ k → lookupA (removeA f k) q = lookupA f q
  | [], k, q, h => by simp [removeA, lookupA]
  | (k2, v2) :: rest, k, q, h => by
    by_cases h2 : k = k2
    · subst h2
      simp [removeA, lookupA, h, lookupA_removeA_ne rest k q h]
    · by_cases h3 : q = k2
      · simp [removeA, lookupA, h2, h3]
      · simp [removeA, lookupA, h2, h3, lookupA_removeA_ne rest k q h]

/-- A validated path always has at least one segment: the empty resolution
(the base directory itself) is rejected. -/
theorem validatePath_ne_nil (p : String) (segs : PathSegs)
    (h : validatePath p = some segs) : segs ≠ [] := by
  unfold validatePath at h
  split at h
  · simp at h
  · split at h
    · simp at h
    · split at h
      · simp at h
      · simp at h
      · have h2 := Option.some.inj h
        rw [← h2]
        simp

/-- The staging path differs from the destination: its final segment
carries the `.tmp` suffix. -/
theorem tempFor_ne (segs : PathSegs) (h : segs ≠ []) : tempFor segs ≠ segs := by
  intro heq
  have h1 : (tempFor segs).getLastD ("") = segs.getLastD ("") ++ (".tmp") := by
    simp [tempFor]
  rw [heq] at h1
  have h2 := congrArg String.length h1
  rw [String.length_append] at h2
  have h3 : (".tmp").length = 4 := by decide
  omega

/-! ### Characterizing the applier -/

/-- The target path named by an operation. -/
def opPath : ChangeOperation → String
  | ChangeOperation.Replace p _ => p

/-- The per-operation outcome, which depends only on the operation and the
write oracle, never on the filesystem contents: `none` for success,
otherwise the recorded error kind. -/
def opOutcome (wok : PathSegs → Bool) : ChangeOperation → Option ErrorKind
  | ChangeOperation.Replace p _ =>
    match validatePath p with
    | none => some ErrorKind.PathTraversal
    | some segs => if wok segs then none else some ErrorKind.IoErr

theorem applyOne_invalid (wok : PathSegs → Bool) (st : FsState) (p content : String)
    (h : validatePath p = none) :
    applyOne wok st (ChangeOperation.Replace p content)
      = (st, Sum.inr (p, ErrorKind.PathTraversal)) := by
  simp [applyOne, h]

theorem applyOne_ok (wok : PathSegs → Bool) (st : FsState) (p content : String)
    (segs : PathSegs) (h : validatePath p = some segs) (hw : wok segs = true) :
    applyOne wok st (ChangeOperation.Replace p content)
      = ({ files := setA (removeA (setA st.files (tempFor segs) content) (tempFor segs))
             segs content,
           dirs := addParents st.dirs segs }, Sum.inl p) := by
  simp [applyOne, h, atomicWrite, hw]

theorem applyOne_wfail (wok : PathSegs → Bool) (st : FsState) (p content : String)
    (segs : PathSegs) (h : validatePath p = some segs) (hw : wok segs = false) :
    applyOne wok st (ChangeOperation.Replace p content)
      = ({ files := removeA (setA st.files (tempFor segs) content) (tempFor segs),
           dirs := addParents st.dirs segs }, Sum.inr (p, ErrorKind.IoErr)) := by
  simp [applyOne, h, atomicWrite, hw]

/-- Every operation yields exactly one result line: the report is complete. -/
theorem applyDoc_count (wok : PathSegs → Bool) :
    ∀ (doc : List ChangeOperation) (st : FsState),
      ((applyDoc wok st doc).2.applied).length + ((applyDoc wok st doc).2.failed).length
        = doc.length
  | [], st => by simp [applyDoc]
  | op :: ops, st => by
    rcases op with ⟨p, content⟩
    rcases hv : validatePath p with _ | segs
    · have := applyDoc_count wok ops st
      simp only [applyDoc, applyOne_invalid wok st p content hv]
      simp only [List.length_cons, List.length]
      omega
    · rcases hw : wok segs with _ | _
      · have := applyDoc_count wok ops
          { files := removeA (setA st.files (tempFor segs) content) (tempFor segs),
            dirs := addParents st.dirs segs }
        simp only [applyDoc, applyOne_wfail wok st p content segs hv hw]
        simp only [List.length_cons, List.length]
        omega
      · have := applyDoc_count wok ops
          { files := setA (removeA (setA st.files (tempFor segs) content) (tempFor segs))
              segs content,
            dirs := addParents st.dirs segs }
        simp only [applyDoc, applyOne_ok wok st p content segs hv hw]
        simp only [List.length_cons, List.length]
        omega

/-- The applied paths, in document order, are exactly those of the
operations whose outcome is success — independent of the starting
filesystem state. -/
theorem applyDoc_applied (wok : PathSegs → Bool) :
    ∀ (doc : List ChangeOperation) (st : FsState),
      (applyDoc wok st doc).2.applied
        = doc.filterMap
            (fun op => if opOutcome wok op = none then some (opPath op) else none)
  | [], st => by simp [applyDoc]
  | op :: ops, st => by
    rcases op with ⟨p, content⟩
    rcases hv : validatePath p with _ | segs
    · simp only [applyDoc, applyOne_invalid wok st p content hv, List.filterMap_cons]
      simp [opOutcome, hv, applyDoc_applied wok ops st]
    · rcases hw : wok segs with _ | _
      · simp only [applyDoc, applyOne_wfail wok st p content segs hv hw,
          List.filterMap_cons]
        simp [opOutcome, hv, hw, applyDoc_applied wok ops]
      · simp only [applyDoc, applyOne_ok wok st p content segs hv hw,
          List.filterMap_cons]
        simp [opOutcome, opPath, hv, hw, applyDoc_applied wok ops]

/-- The failure lines, in document order, are exactly the operations whose
outcome is an error, paired with that error — independent of the starting
filesystem state. -/
theorem applyDoc_failed (wok : PathSegs → Bool) :
    ∀ (doc : List ChangeOperation) (st : FsState),
      (applyDoc wok st doc).2.failed
        = doc.filterMap
            (fun op => (opOutcome wok op).map (fun e => (opPath op, e)))
  | [], st => by simp [applyDoc]
  | op :: ops, st => by
    rcases op with ⟨p, content⟩
    rcases hv : validatePath p with _ | segs
    · simp only [applyDoc, applyOne_invalid wok st p content hv, List.filterMap_cons]
      simp [opOutcome, opPath, hv, applyDoc_failed wok ops st]
    · rcases hw : wok segs with _ | _
      · simp only [applyDoc, applyOne_wfail wok st p content segs hv hw,
          List.filterMap_cons]
        simp [opOutcome, opPath, hv, hw, applyDoc_failed wok ops]
      · simp only [applyDoc, applyOne_ok wok st p content segs hv hw,
          List.filterMap_cons]
        simp [opOutcome, hv, hw, applyDoc_failed wok ops]

/-- Splitting a batch: the state reached after a prefix feeds the rest, and
the report lines concatenate in document order. -/
theorem applyDoc_append (wok : PathSegs → Bool) (b : List ChangeOperation) :
    ∀ (a : List ChangeOperation) (st : FsState),
      applyDoc wok st (a ++ b)
        = ((applyDoc wok (applyDoc wok st a).1 b).1,
           ⟨(applyDoc wok st a).2.applied ++ (applyDoc wok (applyDoc wok st a).1 b).2.applied,
            (applyDoc wok st a).2.failed ++ (applyDoc wok (applyDoc wok st a).1 b).2.failed⟩)
  | [], st => by simp [applyDoc]
  | op :: ops, st => by
    rcases hop : applyOne wok st op with ⟨st2, out⟩
    rcases out with p | f <;>
      simp [applyDoc, hop, applyDoc_append wok b ops st2]

/-- The footprint an operation leaves on the file map: the staging path is
cleared, and on success the destination receives the content. -/
def opEffects (wok : PathSegs → Bool) : ChangeOperation → List (PathSegs × Option String)
  | ChangeOperation.Replace p content =>
    match validatePath p with
    | none => []
    | some segs =>
      if wok segs then [(tempFor segs, none), (segs, some content)]
      else [(tempFor segs, none)]

/-- The footprint of a whole batch, in application order. -/
def docEffects (wok : PathSegs → Bool) : List ChangeOperation → List (PathSegs × Option String)
  | [] => []
  | op :: ops => opEffects wok op ++ docEffects wok ops

/-- The last effect recorded for a path, if any (later entries win). -/
def lastEffect : List (PathSegs × Option String) → PathSegs → Option (Option String)
  | [], _ => none
  | (k, v) :: rest, q =>
    match lastEffect rest q with
    | some r => some r
    | none => if q = k then some v else none

theorem lastEffect_append (b : List (PathSegs × Option String)) (q : PathSegs) :
    ∀ a : List (PathSegs × Option String),
      lastEffect (a ++ b) q
        = match lastEffect b q with
          | some r => some r
          | none => lastEffect a q
  | [] => by
    rcases hb : lastEffect b q with _ | r <;> simp [lastEffect, hb]
  | (k, v) :: a2 => by
    have ih := lastEffect_append b q a2
    rw [List.cons_append]
    show (match lastEffect (a2 ++ b) q with
          | some r => some r
          | none => if q = k then some v else none)
        = match lastEffect b q with
          | some r => some r
          | none => lastEffect ((k, v) :: a2) q
    rw [ih]
    rcases hb : lastEffect b q with _ | r <;> rfl

/-- The file contents after a batch: the last effect for a path wins,
otherwise the path keeps its prior contents. -/
theorem applyDoc_files (wok : PathSegs → Bool) :
    ∀ (doc : List ChangeOperation) (st : FsState) (q : PathSegs),
      lookupA (applyDoc wok st doc).1.files q
        = match lastEffect (docEffects wok doc) q with
          | some r => r
          | none => lookupA st.files q
  | [], st, q => by simp [applyDoc, docEffects, lastEffect]
  | op :: ops, st, q => by
    rcases op with ⟨p, content⟩
    rcases hv : validatePath p with _ | segs
    · have ih := applyDoc_files wok ops st q
      simp only [applyDoc, applyOne_invalid wok st p content hv]
      simp only [docEffects, opEffects, hv, List.nil_append]
      exact ih
    · have hnn : segs ≠ [] := validatePath_ne_nil p segs hv
      have htf : tempFor segs ≠ segs := tempFor_ne segs hnn
      rcases hw : wok segs with _ | _
      · -- write fails: the staging path is cleared, nothing else changes
        have ih := applyDoc_files wok ops
          { files := removeA (setA st.files (tempFor segs) content) (tempFor segs),
            dirs := addParents st.dirs segs } q
        simp only [applyDoc, applyOne_wfail wok st p content segs hv hw]
        rw [ih]
        simp only [docEffects, opEffects, hv, hw, if_false, Bool.false_eq_true,
          lastEffect_append]
        rcases hrest : lastEffect (docEffects wok ops) q with _ | r
        · simp only []
          by_cases hq : q = tempFor segs
          · subst hq
            simp [lastEffect, lookupA_removeA_self]
          · simp [lastEffect, hq, lookupA_removeA_ne _ _ _ hq,
              lookupA_setA_ne _ _ _ _ hq]
        · simp
      · -- write succeeds: destination set, staging path cleared
        have ih := applyDoc_files wok ops
          { files := setA (removeA (setA st.files (tempFor segs) content) (tempFor segs))
              segs content,
            dirs := addParents st.dirs segs } q
        simp only [applyDoc, applyOne_ok wok st p content segs hv hw]
        rw [ih]
        simp only [docEffects, opEffects, hv, hw, if_true, lastEffect_append]
        rcases hrest : lastEffect (docEffects wok ops) q with _ | r
        · simp only []
          by_cases hq : q = segs
          · subst hq
            simp [lastEffect, lookupA_setA_self]
          · by_cases hq2 : q = tempFor segs
            · subst hq2
              simp [lastEffect, hq, lookupA_setA_ne _ _ _ _ hq, lookupA_removeA_self]
            · simp [lastEffect, hq, hq2, lookupA_setA_ne _ _ _ _ hq,
                lookupA_removeA_ne _ _ _ hq2, lookupA_setA_ne _ _ _ _ hq2]
        · simp

/-- A `filterMap` that only ever keeps (a function of) the element itself is
an order-preserving selection from the mapped list. -/
theorem filterMap_sublist_of_map {α β : Type} (g : α → Option β) (f : α → β)
    (hg : ∀ x b, g x = some b → b = f x) :
    ∀ l : List α, List.Sublist (l.filterMap g) (l.map f)
  | [] => by simp
  | x :: l => by
    rcases hx : g x with _ | b
    · simp only [List.filterMap_cons, hx, List.map_cons]
      exact (filterMap_sublist_of_map g f hg l).cons _
    · simp only [List.filterMap_cons, hx, List.map_cons]
      rw [hg x b hx]
      exact (filterMap_sublist_of_map g f hg l).cons₂ _

/-! ### The claims -/

/-- C1: an operation whose path fails validation (absolute, climbing `..`
segments, empty, or resolving to the base directory itself) is recorded as
`(path, PathTraversal)` in `failed`, mutates nothing in the filesystem — the
state the remaining operations see is exactly the state after the preceding
operations — and the batch continues with the remaining operations. -/
theorem c1_path_traversal_contained (wok : PathSegs → Bool) (st : FsState)
    (pre post : List ChangeOperation) (p content : String)
    (h : validatePath p = none) :
    applyDoc wok st (pre ++ ChangeOperation.Replace p content :: post)
      = ((applyDoc wok (applyDoc wok st pre).1 post).1,
         ⟨(applyDoc wok st pre).2.applied
            ++ (applyDoc wok (applyDoc wok st pre).1 post).2.applied,
          (applyDoc wok st pre).2.failed
            ++ (p, ErrorKind.PathTraversal)
              :: (applyDoc wok (applyDoc wok st pre).1 post).2.failed⟩) := by
  rw [applyDoc_append]
  simp [applyDoc, applyOne_invalid _ _ _ _ h]

theorem c1_witness :
    validatePath ("../escape.txt") = none ∧
    applyDoc (fun _ => true) ⟨[], []⟩
        [ChangeOperation.Replace ("../escape.txt") ("pwn")]
      = (⟨[], []⟩, ⟨[], [(("../escape.txt"), ErrorKind.PathTraversal)]⟩) := by
  constructor
  · rfl
  · have h := c1_path_traversal_contained (fun _ => true) ⟨[], []⟩ [] []
      ("../escape.txt") ("pwn") (by rfl)
    simpa using h

/-- C2: the applier never raises for per-file problems — with a usable base
directory it returns a full itemized result in which every operation
produces exactly one line, the applied paths and the failed paths each
appearing in document order; only an unusable base directory aborts the
whole call. -/
theorem c2_batch_completes (wok : PathSegs → Bool) (st : FsState)
    (doc : ParsedDocument) :
    applyParsed false wok st doc = Except.error ("unusable baseDir") ∧
    applyParsed true wok st doc = Except.ok (applyDoc wok st doc) ∧
    ((applyDoc wok st doc).2.applied).length
      + ((applyDoc wok st doc).2.failed).length = doc.length ∧
    List.Sublist ((applyDoc wok st doc).2.applied) (doc.map opPath) ∧
    List.Sublist (((applyDoc wok st doc).2.failed).map Prod.fst) (doc.map opPath) := by
  refine ⟨by simp [applyParsed], by simp [applyParsed],
    applyDoc_count wok doc st, ?_, ?_⟩
  · rw [applyDoc_applied]
    refine filterMap_sublist_of_map _ _ ?_ doc
    intro op b hb
    by_cases h : opOutcome wok op = none
    · rw [if_pos h] at hb
      exact (Option.some.inj hb).symm
    · rw [if_neg h] at hb
      cases hb
  · rw [applyDoc_failed, List.map_filterMap]
    refine filterMap_sublist_of_map _ _ ?_ doc
    intro op b hb
    rcases ho : opOutcome wok op with _ | e
    · rw [ho] at hb
      cases hb
    · rw [ho] at hb
      simpa using (Option.some.inj hb).symm

/-- C3: the write step is atomic via temp-file-and-rename — when the rename
step fails, the failure is recorded as `(path, Io)`, and the destination
keeps exactly its prior contents (or stays absent), both in the final state
and in the intermediate state in which the content is only staged at the
temporary path. -/
theorem c3_atomic_write_failure (wok : PathSegs → Bool) (st : FsState)
    (p content : String) (segs : PathSegs)
    (hv : validatePath p = some segs) (hw : wok segs = false) :
    (applyOne wok st (ChangeOperation.Replace p content)).2
        = Sum.inr (p, ErrorKind.IoErr) ∧
    lookupA (applyOne wok st (ChangeOperation.Replace p content)).1.files segs
        = lookupA st.files segs ∧
    lookupA (setA st.files (tempFor segs) content) segs = lookupA st.files segs := by
  have hne : segs ≠ tempFor segs :=
    fun hh => tempFor_ne segs (validatePath_ne_nil p segs hv) hh.symm
  rw [applyOne_wfail wok st p content segs hv hw]
  refine ⟨rfl, ?_, lookupA_setA_ne _ _ _ _ hne⟩
  rw [lookupA_removeA_ne _ _ _ hne, lookupA_setA_ne _ _ _ _ hne]

theorem c3_witness :
    validatePath ("a/b.txt") = some [("a"), ("b.txt")] ∧
    ((applyOne (fun _ => false) ⟨[([("a"), ("b.txt")], "old")], []⟩
          (ChangeOperation.Replace ("a/b.txt") ("new"))).2
        = Sum.inr (("a/b.txt"), ErrorKind.IoErr) ∧
      lookupA (applyOne (fun _ => false) ⟨[([("a"), ("b.txt")], "old")], []⟩
            (ChangeOperation.Replace ("a/b.txt") ("new"))).1.files
          [("a"), ("b.txt")]
        = lookupA [([("a"), ("b.txt")], "old")] [("a"), ("b.txt")] ∧
      lookupA (setA [([("a"), ("b.txt")], "old")] (tempFor [("a"), ("b.txt")]) ("new"))
          [("a"), ("b.txt")]
        = lookupA [([("a"), ("b.txt")], "old")] [("a"), ("b.txt")]) := by
  refine ⟨by rfl, ?_⟩
  exact c3_atomic_write_failure (fun _ => false) ⟨[([("a"), ("b.txt")], "old")], []⟩
    ("a/b.txt") ("new") [("a"), ("b.txt")] (by rfl) rfl

/-- C4: parsing is all-or-nothing — when it fails, the error is one of the
structured kinds (`MissingName`, `UnknownOperation`, `MalformedBlock`), no
document is produced, and the apply pipeline performs no filesystem change
at all for that input: the document that failed to parse is never applied. -/
theorem c4_parse_all_or_nothing (xml : String) (e : ParseError)
    (h : parseDiffXml xml = Except.error e) (baseOk : Bool)
    (wok : PathSegs → Bool) (st : FsState) :
    applyDiffPatches baseOk wok st xml
        = (st, Except.error (parseErrorMessage e)) ∧
    (e = ParseError.MissingName ∨ (∃ f, e = ParseError.UnknownOperation f) ∨
      e = ParseError.MalformedBlock) := by
  constructor
  · simp [applyDiffPatches, h]
  · cases e
    · exact Or.inl rfl
    · exact Or.inr (Or.inl ⟨_, rfl⟩)
    · exact Or.inr (Or.inr rfl)

theorem c4_witness :
    parseDiffXml ("<file>") = Except.error ParseError.MissingName ∧
    applyDiffPatches true (fun _ => true) ⟨[], []⟩ ("<file>")
      = (⟨[], []⟩, Except.error (parseErrorMessage ParseError.MissingName)) := by
  refine ⟨rfl, ?_⟩
  exact (c4_parse_all_or_nothing ("<file>") ParseError.MissingName rfl true
    (fun _ => true) ⟨[], []⟩).1

/-- C5: round-trip — parsing the concatenation of any number of well-formed
`<file name="..."><replace>...</replace></file>` blocks succeeds and
recovers exactly one operation per block, carrying the original paths and
the original content verbatim, in document order.  Well-formedness of a
block means its path contains no quote character and its content does not
contain the close marker `</replace>` (either would end the block early in
any parse of this grammar). -/
theorem c5_round_trip (l : List (String × String))
    (hq : ∀ pc ∈ l, ('\"') ∉ pc.1.toList)
    (hc : ∀ pc ∈ l, ¬ CLOSER <:+: pc.2.toList) :
    parseDiffXml (renderDoc l)
      = Except.ok (l.map (fun pc => ChangeOperation.Replace pc.1 pc.2)) := by
  unfold parseDiffXml
  exact parseBlocks_renderDoc l hq hc _ (Nat.lt_succ_of_le (length_le_renderDoc l))

theorem c5_witness :
    (∀ pc ∈ [(("a.txt"), ("hello")), (("src/b.txt"), ("world"))],
      ('\"') ∉ pc.1.toList) ∧
    (∀ pc ∈ [(("a.txt"), ("hello")), (("src/b.txt"), ("world"))],
      ¬ CLOSER <:+: pc.2.toList) ∧
    parseDiffXml (renderDoc [(("a.txt"), ("hello")), (("src/b.txt"), ("world"))])
      = Except.ok [ChangeOperation.Replace ("a.txt") ("hello"),
          ChangeOperation.Replace ("src/b.txt") ("world")] := by
  refine ⟨by decide, by decide, ?_⟩
  exact c5_round_trip [(("a.txt"), ("hello")), (("src/b.txt"), ("world"))]
    (by decide) (by decide)

/-- C6: a `<replace>` payload containing the literal substring `</file>`
(markup-like text) is parsed as a single operation with that substring kept
intact in its content: the embedded marker is not treated as an early close
tag, because the scanner looks for the matching `</replace>` first. -/
theorem c6_embedded_close_marker (p c : String)
    (hq : ('\"') ∉ p.toList)
    (hmark : ("</file>").toList <:+: c.toList)
    (hc : ¬ CLOSER <:+: c.toList) :
    parseDiffXml (renderBlock p c) = Except.ok [ChangeOperation.Replace p c] := by
  have h1 : renderBlock p c = renderDoc [(p, c)] := by
    simp [renderDoc]
  rw [h1]
  unfold parseDiffXml
  refine parseBlocks_renderDoc [(p, c)] ?_ ?_ _
    (Nat.lt_succ_of_le (length_le_renderDoc _))
  · intro pc hpc
    rcases List.mem_singleton.mp hpc with rfl
    exact hq
  · intro pc hpc
    rcases List.mem_singleton.mp hpc with rfl
    exact hc

theorem c6_witness :
    (('\"') ∉ ("a.txt").toList) ∧
    (("</file>").toList <:+: ("x</file>y").toList) ∧
    (¬ CLOSER <:+: ("x</file>y").toList) ∧
    parseDiffXml (renderBlock ("a.txt") ("x</file>y"))
      = Except.ok [ChangeOperation.Replace ("a.txt") ("x</file>y")] := by
  refine ⟨by decide, by decide, by decide, ?_⟩
  exact c6_embedded_close_marker ("a.txt") ("x</file>y") (by decide) (by decide)
    (by decide)

/-- C7: an input with no `<file` marker anywhere parses to the empty
document rather than an error, so the caller can tell "nothing to apply"
from the error path. -/
theorem c7_no_blocks_empty_doc (xml : String) (h : ¬ OPENF <:+: xml.toList) :
    parseDiffXml xml = Except.ok [] := by
  unfold parseDiffXml
  simp only [parseBlocks, parseBlock_no_open _ h]

theorem c7_witness :
    (¬ OPENF <:+: ("hello world").toList) ∧
    parseDiffXml ("hello world") = Except.ok [] := by
  refine ⟨by decide, ?_⟩
  exact c7_no_blocks_empty_doc ("hello world") (by decide)

/-- C8: applying the same document twice against the same base directory is
idempotent — the file contents after the second run agree with those after
the first at every path, and the second run reports the same `applied`
paths in the same order. -/
theorem c8_idempotent (wok : PathSegs → Bool) (st : FsState)
    (doc : ParsedDocument) :
    (∀ q, lookupA (applyDoc wok (applyDoc wok st doc).1 doc).1.files q
        = lookupA (applyDoc wok st doc).1.files q) ∧
    (applyDoc wok (applyDoc wok st doc).1 doc).2.applied
      = (applyDoc wok st doc).2.applied := by
  constructor
  · intro q
    rw [applyDoc_files wok doc (applyDoc wok st doc).1 q,
      applyDoc_files wok doc st q]
    rcases h : lastEffect (docEffects wok doc) q with _ | r <;> rfl
  · rw [applyDoc_applied wok doc (applyDoc wok st doc).1,
      applyDoc_applied wok doc st]

/-- C9: the apply pipeline's result — success flag, message, and resulting
filesystem state — does not depend on the ignore-pattern configuration: the
`fs:applyXmlDiff` handler never consults the ignore predicate (only the
directory walker `readDirRecursive` does). -/
theorem c9_ignore_patterns_immaterial (ig1 ig2 : String → Bool) (baseOk : Bool)
    (wok : PathSegs → Bool) (st : FsState) (xml : String) :
    fsApplyXmlDiffHandler ig1 baseOk wok st xml
      = fsApplyXmlDiffHandler ig2 baseOk wok st xml := rfl

/-- C10: the `fs:readFile` handler enforces the 5 MB limit — for a file
whose stat succeeds, it rejects exactly when the size exceeds
`5 * 1024 * 1024` bytes, with a message containing `too large` and without
reading the content, and returns the content otherwise. -/
theorem c10_read_file_size_limit (size : Nat) (content relPath : String) :
    fsReadFileHandler (some size) content relPath
      = (if 5 * 1024 * 1024 < size then (Except.error (tooLargeMsg relPath size), false)
         else (Except.ok content, true)) ∧
    ("too large").toList <:+: (tooLargeMsg relPath size).toList := by
  constructor
  · have hiff : (((size : ℚ) / (1024 * 1024)) > 5) ↔ (5 * 1024 * 1024 < size) := by
      rw [gt_iff_lt, lt_div_iff₀ (by norm_num : (0 : ℚ) < 1024 * 1024)]
      exact_mod_cast Iff.rfl
    by_cases hsz : 5 * 1024 * 1024 < size
    · simp only [fsReadFileHandler, if_pos (hiff.mpr hsz), if_pos hsz]
    · simp only [fsReadFileHandler, if_neg (fun hlt => hsz (hiff.mp hlt)),
        if_neg hsz]
  · have hmsg : (tooLargeMsg relPath size).toList
        = (((("File ").toList ++ relPath.toList) ++ (" is too large (").toList)
            ++ (mbFixed1 size).toList)
          ++ (" MB). Files over 5MB are not supported.").toList := by
      show ((("File ") ++ relPath ++ (" is too large (") ++ mbFixed1 size
          ++ (" MB). Files over 5MB are not supported.")).toList = _)
      rw [toList_append, toList_append, toList_append, toList_append]
    have h1 : ("too large").toList <:+: (" is too large (").toList := by decide
    have h2 : (" is too large (").toList
        <:+: ((("File ").toList ++ relPath.toList) ++ (" is too large (").toList) :=
      List.IsSuffix.isInfix (List.suffix_append _ _)
    have h3 := h2.trans (List.IsPrefix.isInfix
      (List.prefix_append ((("File ").toList ++ relPath.toList)
          ++ (" is too large (").toList) ((mbFixed1 size).toList)))
    have h4 := h3.trans (List.IsPrefix.isInfix
      (List.prefix_append (((("File ").toList ++ relPath.toList)
            ++ (" is too large (").toList) ++ (mbFixed1 size).toList)
        ((" MB). Files over 5MB are not supported.").toList)))
    rw [hmsg]
    exact h1.trans h4
